import Mathlib

/-!
Verification of `wcat.c` (initial-utilities/wcat), a minimal file
concatenation utility.  The C program is:

```
#define MAX_LINE_LENGTH 1000
int main(int argc, char *argv[]) {
    if (argc < 2) { return 0; }
    char line[MAX_LINE_LENGTH];
    for (int i = 1; i < argc; i++) {
        FILE *f = fopen(argv[i], "r");
        if (!f) { printf("wcat: cannot open file\n"); return 1; }
        while (fgets(line, MAX_LINE_LENGTH-1, f) != NULL) {
            line[MAX_LINE_LENGTH-1] = 0;
            printf("%s", line);
        }
        fclose(f);
    }
    return 0;
}
```

We model file contents and the stdout stream as lists of bytes (`Nat`),
the stack buffer `line` as a `List Nat` of length `MAX_LINE_LENGTH`
(its initial contents are arbitrary, matching the uninitialized C
array), and the filesystem view of the argument list as a
`List (Option (List Nat))`: `some cs` for a path that opens with
content `cs`, `none` for a path whose `fopen` fails.

`fgets(buf, n, f)` reads at most `n - 1` bytes, stopping after a
newline, and writes a NUL terminator after the bytes read; it returns
NULL exactly when no byte could be read (end of file).  `printf("%s",
buf)` writes the bytes of `buf` up to (excluding) the first NUL byte.
-/

/-- `MAX_LINE_LENGTH` from the C source. -/
def MAX_LINE_LENGTH : Nat := 1000

/-- Take bytes from `cs` until `limit` bytes are taken, a newline (byte 10)
has been taken, or `cs` is exhausted, returning the bytes taken and the
remainder.  This is the portion of the stream one `fgets` call consumes. -/
def takeLine : Nat → List Nat → List Nat × List Nat
  | _, [] => ([], [])
  | 0, cs => ([], cs)
  | limit + 1, c :: cs =>
      if c = 10 then ([c], cs)
      else
        let p := takeLine limit cs
        (c :: p.1, p.2)

/-- Model of `fgets` with size argument `size` on a stream whose remaining
bytes are `cs`: returns `none` at end of file, otherwise the chunk read
(at most `size - 1` bytes, stopping after a newline) and the remaining
stream. -/
def fgetsModel (size : Nat) (cs : List Nat) : Option (List Nat × List Nat) :=
  match cs with
  | [] => none
  | _ :: _ => some (takeLine (size - 1) cs)

/-- The `fgets` call in the source: `fgets(line, MAX_LINE_LENGTH-1, f)`. -/
def fgetsCall (cs : List Nat) : Option (List Nat × List Nat) :=
  fgetsModel (MAX_LINE_LENGTH - 1) cs

/-- Effect of a successful `fgets` on the buffer: the chunk is written at
the start, followed by a NUL terminator; bytes beyond that keep their
previous values. -/
def storeChunk (buf chunk : List Nat) : List Nat :=
  chunk ++ 0 :: buf.drop (chunk.length + 1)

/-- `printf("%s", buf)`: the bytes of `buf` strictly before the first NUL. -/
def printfStr (buf : List Nat) : List Nat :=
  buf.takeWhile (fun b => b != 0)

/-- The diagnostic written on `fopen` failure: `"wcat: cannot open file\n"`. -/
def errMsg : List Nat :=
  ("wcat: cannot open file".toList.map Char.toNat) ++ [10]

/-- The `while (fgets(...))` loop over one file, with explicit fuel (the
loop consumes at least one stream byte per iteration, so fuel
`cs.length` is enough).  State: the buffer and the remaining stream.
Returns the bytes written to stdout and the final buffer.  Each
iteration performs the forced termination `line[MAX_LINE_LENGTH-1] = 0`
before printing. -/
def catLoop : Nat → List Nat → List Nat → List Nat × List Nat
  | 0, buf, _ => ([], buf)
  | fuel + 1, buf, cs =>
      match fgetsCall cs with
      | none => ([], buf)
      | some (chunk, rest) =>
          let buf1 := (storeChunk buf chunk).set (MAX_LINE_LENGTH - 1) 0
          let p := catLoop fuel buf1 rest
          (printfStr buf1 ++ p.1, p.2)

/-- Streaming one whole file: run the read loop with sufficient fuel. -/
def catFile (buf cs : List Nat) : List Nat × List Nat :=
  catLoop cs.length buf cs

/-- The `for` loop over the argument list: returns the stdout bytes and
the exit code.  `none` models a path whose `fopen` fails: the
diagnostic is printed to stdout and the program exits with code 1. -/
def wcatLoop (buf : List Nat) : List (Option (List Nat)) → List Nat × Nat
  | [] => ([], 0)
  | none :: _ => (errMsg, 1)
  | some cs :: rest =>
      let p := catFile buf cs
      let q := wcatLoop p.2 rest
      (p.1 ++ q.1, q.2)

/-- `main`: with no file arguments (`argc < 2`) return 0 immediately;
otherwise run the loop.  `buf` is the initial (uninitialized) contents
of the stack array `line`. -/
def wcatMain (buf : List Nat) (args : List (Option (List Nat))) :
    List Nat × Nat :=
  if args.isEmpty then ([], 0) else wcatLoop buf args

/-! ### Variant without the forced termination (for the refinement claim) -/

/-- The read loop exactly as `catLoop` but WITHOUT the statement
`line[MAX_LINE_LENGTH-1] = 0`. -/
def catLoopNF : Nat → List Nat → List Nat → List Nat × List Nat
  | 0, buf, _ => ([], buf)
  | fuel + 1, buf, cs =>
      match fgetsCall cs with
      | none => ([], buf)
      | some (chunk, rest) =>
          let buf1 := storeChunk buf chunk
          let p := catLoopNF fuel buf1 rest
          (printfStr buf1 ++ p.1, p.2)

/-- One file, no forced termination. -/
def catFileNF (buf cs : List Nat) : List Nat × List Nat :=
  catLoopNF cs.length buf cs

/-- The argument loop, no forced termination. -/
def wcatLoopNF (buf : List Nat) : List (Option (List Nat)) → List Nat × Nat
  | [] => ([], 0)
  | none :: _ => (errMsg, 1)
  | some cs :: rest =>
      let p := catFileNF buf cs
      let q := wcatLoopNF p.2 rest
      (p.1 ++ q.1, q.2)

/-- `main` without the forced termination statement. -/
def wcatMainNF (buf : List Nat) (args : List (Option (List Nat))) :
    List Nat × Nat :=
  if args.isEmpty then ([], 0) else wcatLoopNF buf args

/-! ### Buffer-free description of the per-file output -/

/-- Buffer-free description of the bytes one file's loop writes: for each
chunk `fgets` delivers, `printf` writes the chunk up to its first NUL. -/
def fileOutF : Nat → List Nat → List Nat
  | 0, _ => []
  | fuel + 1, cs =>
      match fgetsCall cs with
      | none => []
      | some (chunk, rest) =>
          chunk.takeWhile (fun b => b != 0) ++ fileOutF fuel rest

/-- Buffer-free description of the whole run. -/
def pureRun : List (Option (List Nat)) → List Nat × Nat
  | [] => ([], 0)
  | none :: _ => (errMsg, 1)
  | some cs :: rest =>
      let q := pureRun rest
      (fileOutF cs.length cs ++ q.1, q.2)

/-! ### Event trace (file-handle and file-touch accounting)

To state resource claims (one handle at a time; files after a failed
open are never touched) we record the run as a list of events.  Event
payloads mirror what the corresponding C calls do. -/

/-- Observable events of a run.  `openOk i` / `openFail i`: `fopen` of the
i-th file argument (0-based) succeeded / failed; `readEv i chunk`: a
successful `fgets` on file `i` returning `chunk`; `closeEv i`:
`fclose` of file `i`; `writeEv bs`: `printf` wrote bytes `bs`. -/
inductive Ev where
  | openOk : Nat → Ev
  | openFail : Nat → Ev
  | readEv : Nat → List Nat → Ev
  | closeEv : Nat → Ev
  | writeEv : List Nat → Ev
deriving DecidableEq, Repr

/-- Events of the read loop over file `i` with content `cs`. -/
def fileEv : Nat → Nat → List Nat → List Ev
  | 0, _, _ => []
  | fuel + 1, i, cs =>
      match fgetsCall cs with
      | none => []
      | some (chunk, rest) =>
          Ev.readEv i chunk :: Ev.writeEv (chunk.takeWhile (fun b => b != 0))
            :: fileEv fuel i rest

/-- Events of the argument loop, starting at file index `i`. -/
def traceLoop (i : Nat) : List (Option (List Nat)) → List Ev
  | [] => []
  | none :: _ => [Ev.openFail i, Ev.writeEv errMsg]
  | some cs :: rest =>
      Ev.openOk i :: (fileEv cs.length i cs ++ Ev.closeEv i :: traceLoop (i + 1) rest)

/-- Events of a whole run of `main` (with `argc < 2` nothing happens). -/
def runEvents (args : List (Option (List Nat))) : List Ev :=
  if args.isEmpty then [] else traceLoop 0 args

/-- Effect of one event on the number of open file handles. -/
def hStep (n : Nat) (e : Ev) : Nat :=
  match e with
  | Ev.openOk _ => n + 1
  | Ev.closeEv _ => n - 1
  | _ => n

/-- Number of open handles after processing `evs`, starting from `n`. -/
def countOpen (n : Nat) (evs : List Ev) : Nat :=
  evs.foldl hStep n

/-- Largest number of simultaneously open handles at any instant while
processing `evs`, starting from `n` (the start instant included). -/
def maxOpen : Nat → List Ev → Nat
  | n, [] => n
  | n, e :: evs => max n (maxOpen (hStep n e) evs)

/-- The file index an event touches (`writeEv` touches no file; 0). -/
def evIdx : Ev → Nat
  | Ev.openOk i => i
  | Ev.openFail i => i
  | Ev.readEv i _ => i
  | Ev.closeEv i => i
  | Ev.writeEv _ => 0

/-! ### The buffer states passed to `printf`

For the forced-termination invariant we collect, in order, every value
of `line` at the instant `printf("%s", line)` runs. -/

/-- Buffers passed to `printf` during the read loop over one file. -/
def catBufs : Nat → List Nat → List Nat → List (List Nat)
  | 0, _, _ => []
  | fuel + 1, buf, cs =>
      match fgetsCall cs with
      | none => []
      | some (chunk, rest) =>
          let buf1 := (storeChunk buf chunk).set (MAX_LINE_LENGTH - 1) 0
          buf1 :: catBufs fuel buf1 rest

/-- Buffers passed to `printf("%s", line)` during a whole run. -/
def runBufs (buf : List Nat) : List (Option (List Nat)) → List (List Nat)
  | [] => []
  | none :: _ => []
  | some cs :: rest => catBufs cs.length buf cs ++ runBufs (catFile buf cs).2 rest

/-! ### Basic lemmas about the `fgets` model -/

/-- The chunk and the remainder reassemble to the stream `fgets` saw. -/
theorem takeLine_append : ∀ (k : Nat) (cs : List Nat),
    (takeLine k cs).1 ++ (takeLine k cs).2 = cs := by
  intro k
  induction k with
  | zero => intro cs; cases cs <;> simp [takeLine]
  | succ k ih =>
    intro cs
    cases cs with
    | nil => simp [takeLine]
    | cons c cs =>
      by_cases h : c = 10
      · simp [takeLine, h]
      · simp [takeLine, h, ih cs]

/-- One `fgets` delivers at most `limit` bytes. -/
theorem takeLine_fst_length : ∀ (k : Nat) (cs : List Nat),
    (takeLine k cs).1.length ≤ k := by
  intro k
  induction k with
  | zero => intro cs; cases cs <;> simp [takeLine]
  | succ k ih =>
    intro cs
    cases cs with
    | nil => simp [takeLine]
    | cons c cs =>
      by_cases h : c = 10
      · simp [takeLine, h]
      · simpa [takeLine, h, Nat.succ_le_succ_iff] using ih cs

/-- On a nonempty stream `fgets` consumes at least one byte. -/
theorem takeLine_fst_ne_nil (k : Nat) (c : Nat) (cs : List Nat) :
    (takeLine (k + 1) (c :: cs)).1 ≠ [] := by
  by_cases h : c = 10 <;> simp [takeLine, h]

/-- `fgets` returns NULL exactly at end of file. -/
theorem fgetsCall_eq_none (cs : List Nat) : fgetsCall cs = none ↔ cs = [] := by
  cases cs <;> simp [fgetsCall, fgetsModel]

/-- A successful `fgets`: the chunk and remainder reassemble to the
stream, the chunk holds at most `MAX_LINE_LENGTH - 2 = 998` bytes, and
at least one byte of the stream was consumed. -/
theorem fgetsCall_some {cs chunk rest : List Nat}
    (h : fgetsCall cs = some (chunk, rest)) :
    chunk ++ rest = cs ∧ chunk.length ≤ MAX_LINE_LENGTH - 2 ∧
      rest.length < cs.length := by
  cases cs with
  | nil => simp [fgetsCall, fgetsModel] at h
  | cons c cs =>
    have hp : (chunk, rest) = takeLine (MAX_LINE_LENGTH - 1 - 1) (c :: cs) := by
      simpa [fgetsCall, fgetsModel] using h.symm
    have happ := takeLine_append (MAX_LINE_LENGTH - 1 - 1) (c :: cs)
    have hlen := takeLine_fst_length (MAX_LINE_LENGTH - 1 - 1) (c :: cs)
    have hne : (takeLine (MAX_LINE_LENGTH - 1 - 1) (c :: cs)).1 ≠ [] := by
      have : MAX_LINE_LENGTH - 1 - 1 = 997 + 1 := by norm_num [MAX_LINE_LENGTH]
      rw [this]
      exact takeLine_fst_ne_nil 997 c cs
    rw [← hp] at happ hlen hne
    simp only at happ hlen hne
    refine ⟨happ, by simpa [MAX_LINE_LENGTH] using hlen, ?_⟩
    have h1 : chunk.length + rest.length = cs.length + 1 := by
      have := congrArg List.length happ
      simpa using this
    have h2 : 1 ≤ chunk.length := by
      cases hc : chunk with
      | nil => exact absurd hc hne
      | cons _ _ => simp [hc]
    simp only [List.length_cons]
    omega

/-! ### Lemmas about `printf` on the stored buffer -/

/-- `takeWhile (· != 0)` never looks past an explicit NUL. -/
theorem takeWhile_append_zero (chunk t : List Nat) :
    (chunk ++ 0 :: t).takeWhile (fun b => b != 0) =
      chunk.takeWhile (fun b => b != 0) := by
  induction chunk with
  | nil => simp [List.takeWhile_cons]
  | cons c chunk ih =>
    by_cases h : c = 0 <;> simp [List.takeWhile_cons, h, ih]

/-- Writing at a position strictly after an explicit NUL keeps the shape
`chunk ++ 0 :: _`. -/
theorem set_after_zero : ∀ (chunk : List Nat) (n : Nat) (t : List Nat),
    chunk.length < n →
    ∃ t', (chunk ++ 0 :: t).set n 0 = chunk ++ 0 :: t' := by
  intro chunk
  induction chunk with
  | nil =>
    intro n t h
    cases n with
    | zero => omega
    | succ m => exact ⟨t.set m 0, by simp⟩
  | cons c chunk ih =>
    intro n t h
    cases n with
    | zero => simp at h
    | succ m =>
      obtain ⟨t', ht⟩ := ih m t (by simpa using h)
      exact ⟨t', by simp [ht]⟩

/-- Length of the buffer after a store (the chunk fits, so the buffer
length is unchanged). -/
theorem storeChunk_length {buf chunk : List Nat}
    (h : chunk.length + 1 ≤ buf.length) :
    (storeChunk buf chunk).length = buf.length := by
  simp [storeChunk, List.length_drop]
  omega

/-- What `printf` emits from the buffer right after a store and the forced
termination: exactly the chunk up to its first NUL.  The forced write at
index `MAX_LINE_LENGTH - 1` lands strictly after the terminator `fgets`
wrote, so it is invisible to `printf`. -/
theorem printfStr_store_set {buf chunk : List Nat}
    (hb : buf.length = MAX_LINE_LENGTH)
    (hc : chunk.length ≤ MAX_LINE_LENGTH - 2) :
    printfStr ((storeChunk buf chunk).set (MAX_LINE_LENGTH - 1) 0) =
      chunk.takeWhile (fun b => b != 0) := by
  obtain ⟨t', ht⟩ := set_after_zero chunk (MAX_LINE_LENGTH - 1)
    (buf.drop (chunk.length + 1)) (by simp [MAX_LINE_LENGTH] at hc ⊢; omega)
  simp only [storeChunk, printfStr, ht]
  exact takeWhile_append_zero chunk t'

/-- Same, without the forced termination. -/
theorem printfStr_store {buf chunk : List Nat} :
    printfStr (storeChunk buf chunk) = chunk.takeWhile (fun b => b != 0) := by
  simp only [storeChunk, printfStr]
  exact takeWhile_append_zero chunk (buf.drop (chunk.length + 1))

/-- The read loop writes exactly the buffer-free output, and returns a
buffer of unchanged length `MAX_LINE_LENGTH`. -/
theorem catLoop_spec : ∀ (fuel : Nat) (buf cs : List Nat),
    buf.length = MAX_LINE_LENGTH →
    (catLoop fuel buf cs).1 = fileOutF fuel cs ∧
      (catLoop fuel buf cs).2.length = MAX_LINE_LENGTH := by
  intro fuel
  induction fuel with
  | zero => intro buf cs hb; simp [catLoop, fileOutF, hb]
  | succ fuel ih =>
    intro buf cs hb
    cases hf : fgetsCall cs with
    | none => simp [catLoop, fileOutF, hf, hb]
    | some p =>
      obtain ⟨chunk, rest⟩ := p
      obtain ⟨-, hc, -⟩ := fgetsCall_some hf
      have hb1 : ((storeChunk buf chunk).set (MAX_LINE_LENGTH - 1) 0).length
          = MAX_LINE_LENGTH := by
        rw [List.length_set, storeChunk_length]
        · exact hb
        · simp [MAX_LINE_LENGTH] at hc hb ⊢; omega
      have hrec := ih ((storeChunk buf chunk).set (MAX_LINE_LENGTH - 1) 0) rest hb1
      simp only [catLoop, fileOutF, hf]
      exact ⟨by rw [printfStr_store_set hb hc, hrec.1], hrec.2⟩

/-- Same for the variant without forced termination. -/
theorem catLoopNF_spec : ∀ (fuel : Nat) (buf cs : List Nat),
    buf.length = MAX_LINE_LENGTH →
    (catLoopNF fuel buf cs).1 = fileOutF fuel cs ∧
      (catLoopNF fuel buf cs).2.length = MAX_LINE_LENGTH := by
  intro fuel
  induction fuel with
  | zero => intro buf cs hb; simp [catLoopNF, fileOutF, hb]
  | succ fuel ih =>
    intro buf cs hb
    cases hf : fgetsCall cs with
    | none => simp [catLoopNF, fileOutF, hf, hb]
    | some p =>
      obtain ⟨chunk, rest⟩ := p
      obtain ⟨-, hc, -⟩ := fgetsCall_some hf
      have hb1 : (storeChunk buf chunk).length = MAX_LINE_LENGTH := by
        rw [storeChunk_length]
        · exact hb
        · simp [MAX_LINE_LENGTH] at hc hb ⊢; omega
      have hrec := ih (storeChunk buf chunk) rest hb1
      simp only [catLoopNF, fileOutF, hf]
      exact ⟨by rw [printfStr_store, hrec.1], hrec.2⟩

/-- The argument loop computes the buffer-free run, for any initial
buffer of the right length. -/
theorem wcatLoop_spec : ∀ (args : List (Option (List Nat))) (buf : List Nat),
    buf.length = MAX_LINE_LENGTH → wcatLoop buf args = pureRun args := by
  intro args
  induction args with
  | nil => intro buf _; rfl
  | cons a rest ih =>
    intro buf hb
    cases a with
    | none => rfl
    | some cs =>
      have h := catLoop_spec cs.length buf cs hb
      simp only [wcatLoop, pureRun, catFile]
      rw [h.1, ih _ h.2]

/-- Same for the variant without forced termination. -/
theorem wcatLoopNF_spec : ∀ (args : List (Option (List Nat))) (buf : List Nat),
    buf.length = MAX_LINE_LENGTH → wcatLoopNF buf args = pureRun args := by
  intro args
  induction args with
  | nil => intro buf _; rfl
  | cons a rest ih =>
    intro buf hb
    cases a with
    | none => rfl
    | some cs =>
      have h := catLoopNF_spec cs.length buf cs hb
      simp only [wcatLoopNF, pureRun, catFileNF]
      rw [h.1, ih _ h.2]

/-- `main` computes the buffer-free run. -/
theorem wcatMain_spec {buf : List Nat} (args : List (Option (List Nat)))
    (hb : buf.length = MAX_LINE_LENGTH) : wcatMain buf args = pureRun args := by
  cases args with
  | nil => rfl
  | cons a rest => exact wcatLoop_spec _ _ hb

/-- `main` without forced termination computes the buffer-free run. -/
theorem wcatMainNF_spec {buf : List Nat} (args : List (Option (List Nat)))
    (hb : buf.length = MAX_LINE_LENGTH) : wcatMainNF buf args = pureRun args := by
  cases args with
  | nil => rfl
  | cons a rest => exact wcatLoopNF_spec _ _ hb

/-! ### The buffer-free output on NUL-free and on NUL-containing input -/

/-- With enough fuel and no NUL byte in the stream, the chunked output
reassembles the stream exactly. -/
theorem fileOutF_eq_self : ∀ (fuel : Nat) (cs : List Nat),
    cs.length ≤ fuel → (∀ b ∈ cs, b ≠ 0) → fileOutF fuel cs = cs := by
  intro fuel
  induction fuel with
  | zero =>
    intro cs hl _
    have : cs = [] := List.eq_nil_of_length_eq_zero (by omega)
    simp [this, fileOutF]
  | succ fuel ih =>
    intro cs hl hnz
    cases hf : fgetsCall cs with
    | none =>
      rw [fgetsCall_eq_none] at hf
      simp [hf, fileOutF, fgetsCall, fgetsModel]
    | some p =>
      obtain ⟨chunk, rest⟩ := p
      obtain ⟨happ, -, hrl⟩ := fgetsCall_some hf
      have hchunk : chunk.takeWhile (fun b => b != 0) = chunk := by
        rw [List.takeWhile_eq_self_iff]
        intro b hb
        have : b ∈ cs := by rw [← happ]; exact List.mem_append_left _ hb
        simpa using hnz b this
      have hrest : fileOutF fuel rest = rest := by
        refine ih rest (by omega) ?_
        intro b hb
        have : b ∈ cs := by rw [← happ]; exact List.mem_append_right _ hb
        exact hnz b this
      simp only [fileOutF, hf, hchunk, hrest, happ]

/-- The chunked output is never longer than the stream. -/
theorem fileOutF_length_le : ∀ (fuel : Nat) (cs : List Nat),
    (fileOutF fuel cs).length ≤ cs.length := by
  intro fuel
  induction fuel with
  | zero => intro cs; simp [fileOutF]
  | succ fuel ih =>
    intro cs
    cases hf : fgetsCall cs with
    | none => simp [fileOutF, hf]
    | some p =>
      obtain ⟨chunk, rest⟩ := p
      obtain ⟨happ, -, -⟩ := fgetsCall_some hf
      have h1 : (chunk.takeWhile (fun b => b != 0)).length ≤ chunk.length :=
        (List.takeWhile_sublist _).length_le
      have h2 := ih rest
      have h3 : chunk.length + rest.length = cs.length := by
        have := congrArg List.length happ
        simpa using this
      simp only [fileOutF, hf, List.length_append]
      omega

/-- `takeWhile (· != 0)` strictly shortens a list that holds a NUL. -/
theorem takeWhile_length_lt_of_zero : ∀ (l : List Nat), 0 ∈ l →
    (l.takeWhile (fun b => b != 0)).length < l.length := by
  intro l
  induction l with
  | nil => intro h; simp at h
  | cons c l ih =>
    intro h
    by_cases hc : c = 0
    · simp [List.takeWhile_cons, hc]
    · have : 0 ∈ l := by
        cases List.mem_cons.mp h with
        | inl h0 => exact absurd h0.symm hc
        | inr h0 => exact h0
      have := ih this
      simp [List.takeWhile_cons, hc]
      omega

/-- With enough fuel, a stream holding a NUL byte loses at least one byte
in the chunked output. -/
theorem fileOutF_length_lt : ∀ (fuel : Nat) (cs : List Nat),
    cs.length ≤ fuel → 0 ∈ cs → (fileOutF fuel cs).length < cs.length := by
  intro fuel
  induction fuel with
  | zero =>
    intro cs hl h0
    have : cs = [] := List.eq_nil_of_length_eq_zero (by omega)
    simp [this] at h0
  | succ fuel ih =>
    intro cs hl h0
    cases hf : fgetsCall cs with
    | none =>
      rw [fgetsCall_eq_none] at hf
      simp [hf] at h0
    | some p =>
      obtain ⟨chunk, rest⟩ := p
      obtain ⟨happ, -, hrl⟩ := fgetsCall_some hf
      have h3 : chunk.length + rest.length = cs.length := by
        have := congrArg List.length happ
        simpa using this
      have h0' : 0 ∈ chunk ∨ 0 ∈ rest := by
        rw [← happ] at h0
        simpa using h0
      simp only [fileOutF, hf, List.length_append]
      cases h0' with
      | inl hc =>
        have h1 := takeWhile_length_lt_of_zero chunk hc
        have h2 := fileOutF_length_le fuel rest
        omega
      | inr hr =>
        have h1 : (chunk.takeWhile (fun b => b != 0)).length ≤ chunk.length :=
          (List.takeWhile_sublist _).length_le
        have h2 := ih rest (by omega) hr
        omega

/-- The buffer-free run on NUL-free files that all open: the outputs
concatenate and the exit code is 0. -/
theorem pureRun_all_open : ∀ (contents : List (List Nat)),
    (∀ cs ∈ contents, ∀ b ∈ cs, b ≠ 0) →
    pureRun (contents.map some) = (contents.flatten, 0) := by
  intro contents
  induction contents with
  | nil => intro _; rfl
  | cons cs contents ih =>
    intro h
    have h1 : fileOutF cs.length cs = cs :=
      fileOutF_eq_self cs.length cs le_rfl (h cs (by simp))
    have h2 := ih (fun cs' hc => h cs' (by simp [hc]))
    simp only [List.map_cons, pureRun, h1, h2, List.flatten_cons]

/-- The buffer-free run when the file at (0-based) index `good.length`
fails to open: output of the NUL-free prefix, then the diagnostic;
exit code 1. -/
theorem pureRun_first_fail : ∀ (good : List (List Nat))
    (rest : List (Option (List Nat))),
    (∀ cs ∈ good, ∀ b ∈ cs, b ≠ 0) →
    pureRun (good.map some ++ none :: rest) = (good.flatten ++ errMsg, 1) := by
  intro good
  induction good with
  | nil => intro rest _; rfl
  | cons cs good ih =>
    intro rest h
    have h1 : fileOutF cs.length cs = cs :=
      fileOutF_eq_self cs.length cs le_rfl (h cs (by simp))
    have h2 := ih rest (fun cs' hc => h cs' (by simp [hc]))
    have e : (cs :: good).map some ++ none :: rest
        = some cs :: (good.map some ++ none :: rest) := by simp
    rw [e]
    simp only [pureRun]
    rw [h1, h2]
    simp [List.append_assoc]

/-! ### Handle accounting over the event trace -/

/-- `maxOpen` splits over append. -/
theorem maxOpen_append : ∀ (a b : List Ev) (n : Nat),
    maxOpen n (a ++ b) = max (maxOpen n a) (maxOpen (countOpen n a) b) := by
  intro a
  induction a with
  | nil =>
    intro b n
    simp [maxOpen, countOpen]
    cases b with
    | nil => simp [maxOpen]
    | cons e b => simp [maxOpen, Nat.max_le, Nat.le_max_left]
  | cons e a ih =>
    intro b n
    have h1 : maxOpen n ((e :: a) ++ b)
        = max n (maxOpen (hStep n e) (a ++ b)) := rfl
    have h2 : maxOpen n (e :: a) = max n (maxOpen (hStep n e) a) := rfl
    have h3 : countOpen n (e :: a) = countOpen (hStep n e) a := rfl
    rw [h1, ih b (hStep n e), h2, h3, Nat.max_assoc]

/-- Read/write events do not change the handle count. -/
theorem fileEv_countOpen : ∀ (fuel i : Nat) (cs : List Nat) (n : Nat),
    countOpen n (fileEv fuel i cs) = n := by
  intro fuel
  induction fuel with
  | zero => intro i cs n; rfl
  | succ fuel ih =>
    intro i cs n
    cases hf : fgetsCall cs with
    | none => simp [fileEv, hf, countOpen]
    | some p =>
      obtain ⟨chunk, rest⟩ := p
      simp [fileEv, hf, countOpen, List.foldl_cons, hStep]
      exact ih i rest n

/-- Read/write events do not raise the handle count either. -/
theorem fileEv_maxOpen : ∀ (fuel i : Nat) (cs : List Nat) (n : Nat),
    maxOpen n (fileEv fuel i cs) = n := by
  intro fuel
  induction fuel with
  | zero => intro i cs n; rfl
  | succ fuel ih =>
    intro i cs n
    cases hf : fgetsCall cs with
    | none => simp [fileEv, hf, maxOpen]
    | some p =>
      obtain ⟨chunk, rest⟩ := p
      simp [fileEv, hf, maxOpen, hStep, ih i rest n]

/-- Along the argument loop the handle count never exceeds 1 at any
instant, and it returns to 0 at the end. -/
theorem traceLoop_handles : ∀ (args : List (Option (List Nat))) (i : Nat),
    maxOpen 0 (traceLoop i args) ≤ 1 ∧ countOpen 0 (traceLoop i args) = 0 := by
  intro args
  induction args with
  | nil => intro i; simp [traceLoop, maxOpen, countOpen]
  | cons a rest ih =>
    intro i
    cases a with
    | none => simp [traceLoop, maxOpen, countOpen, hStep]
    | some cs =>
      obtain ⟨ihm, ihc⟩ := ih (i + 1)
      constructor
      · have h1 : maxOpen 0 (traceLoop i (some cs :: rest))
            = max 0 (maxOpen 1
                (fileEv cs.length i cs ++ Ev.closeEv i :: traceLoop (i + 1) rest)) := rfl
        rw [h1, maxOpen_append, fileEv_maxOpen, fileEv_countOpen]
        have h2 : maxOpen 1 (Ev.closeEv i :: traceLoop (i + 1) rest)
            = max 1 (maxOpen 0 (traceLoop (i + 1) rest)) := rfl
        rw [h2]
        simp only [Nat.max_le]
        exact ⟨Nat.zero_le 1, le_rfl, le_rfl, ihm⟩
      · have h1 : countOpen 0 (traceLoop i (some cs :: rest))
            = countOpen 1
                (fileEv cs.length i cs ++ Ev.closeEv i :: traceLoop (i + 1) rest) := rfl
        rw [h1, countOpen, List.foldl_append]
        have h2 : List.foldl hStep 1 (fileEv cs.length i cs) = 1 :=
          fileEv_countOpen cs.length i cs 1
        rw [h2]
        exact ihc

/-- Events of the read loop over file `i` touch no file beyond `i`. -/
theorem fileEv_evIdx_le : ∀ (fuel i : Nat) (cs : List Nat),
    ∀ e ∈ fileEv fuel i cs, evIdx e ≤ i := by
  intro fuel
  induction fuel with
  | zero => intro i cs e he; simp [fileEv] at he
  | succ fuel ih =>
    intro i cs e he
    cases hf : fgetsCall cs with
    | none => simp [fileEv, hf] at he
    | some p =>
      obtain ⟨chunk, rest⟩ := p
      simp only [fileEv, hf] at he
      rcases List.mem_cons.mp he with he | he
      · simp [he, evIdx]
      · rcases List.mem_cons.mp he with he | he
        · simp [he, evIdx]
        · exact ih i rest e he

/-- Every event the loop emits from index `i` onward, when the first
failing file sits `good.length` files ahead, touches a file index at
most `i + good.length`. -/
theorem traceLoop_evIdx_le : ∀ (good : List (List Nat)) (i : Nat)
    (rest : List (Option (List Nat))),
    ∀ e ∈ traceLoop i (good.map some ++ none :: rest),
      evIdx e ≤ i + good.length := by
  intro good
  induction good with
  | nil =>
    intro i rest e he
    simp only [List.map_nil, List.nil_append, traceLoop, List.mem_cons,
      List.not_mem_nil, or_false] at he
    rcases he with he | he <;> simp [he, evIdx]
  | cons cs good ih =>
    intro i rest e he
    simp only [List.map_cons, List.cons_append, traceLoop] at he
    rcases List.mem_cons.mp he with he | he
    · simp [he, evIdx]
    · rcases List.mem_append.mp he with he | he
      · have : evIdx e ≤ i := fileEv_evIdx_le cs.length i cs e he
        omega
      · rcases List.mem_cons.mp he with he | he
        · simp [he, evIdx]
        · have := ih (i + 1) rest e he
          simp only [List.length_cons]
          omega

/-! ### The forced terminator in every buffer passed to `printf` -/

/-- Within one file's read loop, every buffer handed to `printf` carries
a 0 in its last slot (index `MAX_LINE_LENGTH - 1`). -/
theorem catBufs_last : ∀ (fuel : Nat) (buf cs : List Nat),
    buf.length = MAX_LINE_LENGTH →
    ∀ b ∈ catBufs fuel buf cs, b[MAX_LINE_LENGTH - 1]? = some 0 := by
  intro fuel
  induction fuel with
  | zero => intro buf cs _ b hb; simp [catBufs] at hb
  | succ fuel ih =>
    intro buf cs hlen b hb
    cases hf : fgetsCall cs with
    | none => simp [catBufs, hf] at hb
    | some p =>
      obtain ⟨chunk, rest⟩ := p
      obtain ⟨-, hc, -⟩ := fgetsCall_some hf
      have hsl : (storeChunk buf chunk).length = MAX_LINE_LENGTH := by
        rw [storeChunk_length]
        · exact hlen
        · simp [MAX_LINE_LENGTH] at hc hlen ⊢; omega
      have hb1len : ((storeChunk buf chunk).set (MAX_LINE_LENGTH - 1) 0).length
          = MAX_LINE_LENGTH := by rw [List.length_set, hsl]
      simp only [catBufs, hf] at hb
      rcases List.mem_cons.mp hb with hb | hb
      · subst hb
        apply List.getElem?_set_self
        rw [hsl]
        simp [MAX_LINE_LENGTH]
      · exact ih _ rest hb1len b hb

/-- Across the whole run, every buffer handed to `printf` carries a 0 in
its last slot. -/
theorem runBufs_last : ∀ (args : List (Option (List Nat))) (buf : List Nat),
    buf.length = MAX_LINE_LENGTH →
    ∀ b ∈ runBufs buf args, b[MAX_LINE_LENGTH - 1]? = some 0 := by
  intro args
  induction args with
  | nil => intro buf _ b hb; simp [runBufs] at hb
  | cons a rest ih =>
    intro buf hlen b hb
    cases a with
    | none => simp [runBufs] at hb
    | some cs =>
      simp only [runBufs] at hb
      rcases List.mem_append.mp hb with hb | hb
      · exact catBufs_last cs.length buf cs hlen b hb
      · exact ih _ (catLoop_spec cs.length buf cs hlen).2 b hb

/-! ### Claims -/

set_option maxRecDepth 8000

/-- C1 counterexample: the file with bytes `[0, 97]` opens and is read,
yet the output is not the byte-for-byte content — `printf("%s", line)`
stops at the NUL, so nothing is written. -/
theorem wcat_concat_exact_counterexample :
    wcatMain (List.replicate MAX_LINE_LENGTH 0) [some [0, 97]] ≠ ([0, 97], 0) := by
  decide

/-- C1 (amended: contents must be NUL-free): for every sequence of
files that all open, whose contents contain no NUL byte, the run exits
with code 0 and writes exactly the byte-for-byte concatenation of the
contents in argument order, for any initial buffer contents. -/
theorem wcat_concat_exact (buf : List Nat) (contents : List (List Nat))
    (hb : buf.length = MAX_LINE_LENGTH)
    (hnz : ∀ cs ∈ contents, ∀ b ∈ cs, b ≠ 0) :
    wcatMain buf (contents.map some) = (contents.flatten, 0) := by
  rw [wcatMain_spec _ hb, pureRun_all_open _ hnz]

/-- C1 witness: two NUL-free files concatenate exactly. -/
theorem wcat_concat_exact_witness :
    (List.replicate MAX_LINE_LENGTH 3).length = MAX_LINE_LENGTH ∧
    (∀ cs ∈ ([[104, 105, 10], [121, 111, 10]] : List (List Nat)),
        ∀ b ∈ cs, b ≠ 0) ∧
    wcatMain (List.replicate MAX_LINE_LENGTH 3)
        (([[104, 105, 10], [121, 111, 10]] : List (List Nat)).map some)
      = (([[104, 105, 10], [121, 111, 10]] : List (List Nat)).flatten, 0) :=
  ⟨by simp, by decide, wcat_concat_exact _ _ (by simp) (by decide)⟩

/-- C2 counterexample: first file `[0, 97]` opens, second fails; the
claim predicts output `[0, 97] ++ errMsg`, but the NUL truncation makes
the actual output just `errMsg`. -/
theorem wcat_failfast_counterexample :
    wcatMain (List.replicate MAX_LINE_LENGTH 0) [some [0, 97], none]
      ≠ ([0, 97] ++ errMsg, 1) := by
  decide

/-- C2 (amended: the first k−1 contents must be NUL-free): when the
file at 0-based index `good.length` is the first that fails to open,
the output is the concatenation of the emitted contents of the earlier
files followed by the diagnostic line, the exit code is 1, and no event
of the run touches a file index beyond the failing one. -/
theorem wcat_failfast (buf : List Nat) (good : List (List Nat))
    (rest : List (Option (List Nat)))
    (hb : buf.length = MAX_LINE_LENGTH)
    (hnz : ∀ cs ∈ good, ∀ b ∈ cs, b ≠ 0) :
    wcatMain buf (good.map some ++ none :: rest)
        = (good.flatten ++ errMsg, 1) ∧
    ∀ e ∈ runEvents (good.map some ++ none :: rest), evIdx e ≤ good.length := by
  constructor
  · rw [wcatMain_spec _ hb, pureRun_first_fail _ _ hnz]
  · intro e he
    have hne : runEvents (good.map some ++ none :: rest)
        = traceLoop 0 (good.map some ++ none :: rest) := by
      cases good <;> rfl
    rw [hne] at he
    simpa using traceLoop_evIdx_le good 0 rest e he

/-- C2 witness: one good NUL-free file, then a failing open, then a
file that is never touched. -/
theorem wcat_failfast_witness :
    (List.replicate MAX_LINE_LENGTH 4).length = MAX_LINE_LENGTH ∧
    (∀ cs ∈ ([[104, 10]] : List (List Nat)), ∀ b ∈ cs, b ≠ 0) ∧
    (wcatMain (List.replicate MAX_LINE_LENGTH 4)
        (([[104, 10]] : List (List Nat)).map some ++ none :: [some [99]])
        = (([[104, 10]] : List (List Nat)).flatten ++ errMsg, 1) ∧
      ∀ e ∈ runEvents (([[104, 10]] : List (List Nat)).map some
          ++ none :: [some [99]]),
        evIdx e ≤ ([[104, 10]] : List (List Nat)).length) :=
  ⟨by simp, by decide, wcat_failfast _ _ _ (by simp) (by decide)⟩

/-- C3: invoked with zero file paths (`argc < 2`), the run returns exit
code 0 and writes nothing, whatever the initial buffer contents. -/
theorem wcat_no_args (buf : List Nat) : wcatMain buf [] = ([], 0) := rfl

/-- C3 witness at a concrete buffer. -/
theorem wcat_no_args_witness :
    wcatMain (List.replicate MAX_LINE_LENGTH 5) [] = ([], 0) :=
  wcat_no_args _

/-- C4 counterexample: a 999-byte stream with no line terminator.  The
claim ("a single read can deliver as many as 999 content bytes, reading
up to 999 bytes or until a terminator or end-of-file") predicts the
whole stream in one read; the code passes `MAX_LINE_LENGTH - 1 = 999`
as the `fgets` size argument, so one read delivers only 998 bytes. -/
theorem fgets_limit_counterexample :
    fgetsCall (List.replicate 999 97) = some (List.replicate 998 97, [97]) ∧
    fgetsCall (List.replicate 999 97) ≠ some (List.replicate 999 97, []) := by
  constructor <;> decide

/-- C4 (amended: 998, not 999): each successful read delivers at most
`MAX_LINE_LENGTH - 2 = 998` content bytes, because the code passes
`MAX_LINE_LENGTH - 1` as the `fgets` size bound and `fgets` reserves
one byte of that bound for the terminator. -/
theorem fgets_chunk_le (cs chunk rest : List Nat)
    (h : fgetsCall cs = some (chunk, rest)) :
    chunk.length ≤ MAX_LINE_LENGTH - 2 :=
  (fgetsCall_some h).2.1

/-- C4 witness: a one-byte read satisfies the bound. -/
theorem fgets_chunk_le_witness :
    fgetsCall [97] = some ([97], []) ∧
    ([97] : List Nat).length ≤ MAX_LINE_LENGTH - 2 :=
  ⟨by decide, fgets_chunk_le [97] [97] [] (by decide)⟩

/-- C5: a single line longer than 999 bytes with no terminator bytes
(no NUL, no newline) is reproduced byte-for-byte with exit code 0: the
silent split across buffer loads inserts no delimiter. -/
theorem wcat_long_line (buf cs : List Nat)
    (hb : buf.length = MAX_LINE_LENGTH)
    (hlong : MAX_LINE_LENGTH - 1 < cs.length)
    (hterm : ∀ b ∈ cs, b ≠ 0 ∧ b ≠ 10) :
    wcatMain buf [some cs] = (cs, 0) := by
  rw [wcatMain_spec _ hb]
  simp only [pureRun]
  rw [fileOutF_eq_self cs.length cs le_rfl (fun b hbm => (hterm b hbm).1)]
  simp

/-- C5 witness: a 1000-byte line of `a` bytes. -/
theorem wcat_long_line_witness :
    (List.replicate MAX_LINE_LENGTH 9).length = MAX_LINE_LENGTH ∧
    MAX_LINE_LENGTH - 1 < (List.replicate 1000 97 : List Nat).length ∧
    (∀ b ∈ (List.replicate 1000 97 : List Nat), b ≠ 0 ∧ b ≠ 10) ∧
    wcatMain (List.replicate MAX_LINE_LENGTH 9) [some (List.replicate 1000 97)]
      = (List.replicate 1000 97, 0) :=
  ⟨by simp, by simp [MAX_LINE_LENGTH],
    fun b hb => by rw [List.mem_replicate] at hb; simp [hb.2],
    wcat_long_line _ _ (by simp) (by simp [MAX_LINE_LENGTH])
      (fun b hb => by rw [List.mem_replicate] at hb; simp [hb.2])⟩

/-- C6: after every read and before the buffer is used for output, the
last byte of the line buffer (index `MAX_LINE_LENGTH - 1`) holds the
terminator value 0 — for every read of every file in every invocation
whose initial buffer has the array's length. -/
theorem wcat_forced_terminator (args : List (Option (List Nat)))
    (buf : List Nat) (hb : buf.length = MAX_LINE_LENGTH) :
    ∀ b ∈ runBufs buf args, b[MAX_LINE_LENGTH - 1]? = some 0 :=
  runBufs_last args buf hb

/-- C6 witness: concrete run over one two-byte file. -/
theorem wcat_forced_terminator_witness :
    (List.replicate MAX_LINE_LENGTH 7).length = MAX_LINE_LENGTH ∧
    ∀ b ∈ runBufs (List.replicate MAX_LINE_LENGTH 7) [some [104, 10]],
      b[MAX_LINE_LENGTH - 1]? = some 0 :=
  ⟨by simp, wcat_forced_terminator [some [104, 10]] _ (by simp)⟩

/-- C7: in every reachable instant of a run, at most one file handle is
open, and every acquired handle has been released when the run ends. -/
theorem wcat_one_handle (args : List (Option (List Nat))) :
    maxOpen 0 (runEvents args) ≤ 1 ∧ countOpen 0 (runEvents args) = 0 := by
  cases args with
  | nil => exact ⟨by simp [runEvents, maxOpen], rfl⟩
  | cons a rest => exact traceLoop_handles (a :: rest) 0

/-- C7 witness: a run with one good file and one failing open. -/
theorem wcat_one_handle_witness :
    maxOpen 0 (runEvents [some [104, 10], none]) ≤ 1 ∧
    countOpen 0 (runEvents [some [104, 10], none]) = 0 :=
  wcat_one_handle _

/-- C8: the run is deterministic — two invocations on the same argument
list with the same file contents produce identical output bytes and
identical exit codes; in particular the result does not depend on the
garbage initially in the uninitialized stack buffer. -/
theorem wcat_deterministic (b1 b2 : List Nat)
    (args : List (Option (List Nat)))
    (h1 : b1.length = MAX_LINE_LENGTH) (h2 : b2.length = MAX_LINE_LENGTH) :
    wcatMain b1 args = wcatMain b2 args := by
  rw [wcatMain_spec _ h1, wcatMain_spec _ h2]

/-- C8 witness: two different initial buffers, same result. -/
theorem wcat_deterministic_witness :
    (List.replicate MAX_LINE_LENGTH 1).length = MAX_LINE_LENGTH ∧
    (List.replicate MAX_LINE_LENGTH 2).length = MAX_LINE_LENGTH ∧
    wcatMain (List.replicate MAX_LINE_LENGTH 1) [some [104, 10]]
      = wcatMain (List.replicate MAX_LINE_LENGTH 2) [some [104, 10]] :=
  ⟨by simp, by simp, wcat_deterministic _ _ _ (by simp) (by simp)⟩

/-- C9 (implicit): any file containing a NUL byte is not reproduced
byte-faithfully — each buffered chunk is written only up to its first
NUL, so at least one byte is dropped — while the exit code is still 0. -/
theorem wcat_nul_dropped (buf cs : List Nat)
    (hb : buf.length = MAX_LINE_LENGTH) (h0 : 0 ∈ cs) :
    (wcatMain buf [some cs]).1 ≠ cs ∧ (wcatMain buf [some cs]).2 = 0 := by
  have e : wcatMain buf [some cs] = (fileOutF cs.length cs, 0) := by
    rw [wcatMain_spec _ hb]
    simp [pureRun]
  have hlt := fileOutF_length_lt cs.length cs le_rfl h0
  refine ⟨?_, by rw [e]⟩
  rw [e]
  intro heq
  have := congrArg List.length heq
  simp only at this
  omega

/-- C9 witness: the one-byte file `[0]` comes out empty with exit 0. -/
theorem wcat_nul_dropped_witness :
    (List.replicate MAX_LINE_LENGTH 6).length = MAX_LINE_LENGTH ∧
    (0 : Nat) ∈ [(0 : Nat)] ∧
    ((wcatMain (List.replicate MAX_LINE_LENGTH 6) [some [0]]).1 ≠ [0] ∧
      (wcatMain (List.replicate MAX_LINE_LENGTH 6) [some [0]]).2 = 0) :=
  ⟨by simp, by decide, wcat_nul_dropped _ _ (by simp) (by decide)⟩

/-- C10 (implicit): removing the forced termination
`line[MAX_LINE_LENGTH-1] = 0` never changes observable behaviour — for
every input the two programs write identical bytes and return identical
exit codes, because `fgets` always places its own terminator within the
first 999 buffer bytes, before the forced byte at index 999. -/
theorem wcat_force_removal_invisible (buf : List Nat)
    (args : List (Option (List Nat))) (hb : buf.length = MAX_LINE_LENGTH) :
    wcatMain buf args = wcatMainNF buf args := by
  rw [wcatMain_spec _ hb, wcatMainNF_spec _ hb]

/-- C10 witness: concrete run, with and without the forced byte. -/
theorem wcat_force_removal_invisible_witness :
    (List.replicate MAX_LINE_LENGTH 8).length = MAX_LINE_LENGTH ∧
    wcatMain (List.replicate MAX_LINE_LENGTH 8) [some [104, 10], none]
      = wcatMainNF (List.replicate MAX_LINE_LENGTH 8) [some [104, 10], none] :=
  ⟨by simp, wcat_force_removal_invisible _ _ (by simp)⟩
